import Mathlib

/-!
Formal model of the pinkbike crawler's listing normalization and persistence
engine, translated from the Go sources (package listing, package exporter's
DB exporter, and package db), together with theorems settling the frozen
claims about the specification.

Conventions of the shallow embedding:
- Go strings are Lean String values; character-level reasoning uses the
  underlying List Char.
- Go time.Time values and SQL timestamps are modelled as Int (seconds).
- Go float64 arithmetic in convertPrice is modelled with exact rationals;
  the inputs reaching it in this development are small integers, for which
  the two agree.
- The SHA-256 primitive from the Go standard library is modelled as an
  arbitrary digest function passed as a parameter; every statement about
  hash equality or inequality is made at the level of the digest preimage,
  exactly as the code builds it.
- Go map iteration order is unspecified and randomized at run time; loops
  that range over a map take the enumeration order of the keys as an
  explicit parameter.
-/

/-- Lower-case a string character by character, modelling Go strings.ToLower
on the ASCII data that flows through this program. -/
def lowerStr (s : String) : String :=
  String.mk (s.data.map Char.toLower)

/-- Substring test on character lists: pat occurs contiguously in s.
This is the semantics of Go strings.Contains. -/
def containsSub (s pat : List Char) : Bool :=
  (List.range (s.length + 1)).any (fun i => decide ((s.drop i).take pat.length = pat))

/-- Go strings.Contains(s, pat). -/
def goContains (s pat : String) : Bool :=
  containsSub s.data pat.data

/-- ASCII word character, the class matched by backslash-w in Go regexp. -/
def isWordChar (c : Char) : Bool :=
  c.isAlphanum || c = '_'

/-- First index at or after i (scanning at most fuel positions) where the
predicate holds. Models the leftmost-match search of regexp FindString. -/
def findFirstAt (p : Nat → Bool) : Nat → Nat → Option Nat
  | _, 0 => none
  | i, fuel + 1 => if p i then some i else findFirstAt p (i + 1) fuel

theorem findFirstAt_some_spec (p : Nat → Bool) :
    ∀ fuel i j, findFirstAt p i fuel = some j →
      p j = true ∧ i ≤ j ∧ ∀ k, i ≤ k → k < j → p k = false := by
  intro fuel
  induction fuel with
  | zero => intro i j h; simp [findFirstAt] at h
  | succ n ih =>
    intro i j h
    simp only [findFirstAt] at h
    by_cases hp : p i = true
    · simp [hp] at h
      subst h
      exact ⟨hp, le_refl i, fun k hk1 hk2 => absurd (lt_of_le_of_lt hk1 hk2) (lt_irrefl i)⟩
    · simp [hp] at h
      obtain ⟨hj, hij, hall⟩ := ih (i + 1) j h
      refine ⟨hj, le_trans (Nat.le_succ i) hij, fun k hk1 hk2 => ?_⟩
      rcases Nat.eq_or_lt_of_le hk1 with heq | hlt
      · subst heq; simpa using hp
      · exact hall k hlt hk2

theorem findFirstAt_none_spec (p : Nat → Bool) :
    ∀ fuel i, findFirstAt p i fuel = none →
      ∀ k, i ≤ k → k < i + fuel → p k = false := by
  intro fuel
  induction fuel with
  | zero => intro i _ k hk1 hk2; omega
  | succ n ih =>
    intro i h k hk1 hk2
    simp only [findFirstAt] at h
    by_cases hp : p i = true
    · simp [hp] at h
    · simp [hp] at h
      rcases Nat.eq_or_lt_of_le hk1 with heq | hlt
      · subst heq; simpa using hp
      · exact ih (i + 1) h k hlt (by omega)

/-- The four-character year alternation of the Go regex, namely
19[8-9][0-9] or 20[0-4][0-9]: years 1980 through 2049. -/
def yearAltOK (a b c d : Char) : Bool :=
  (decide (a = '1') && decide (b = '9') && decide ('8' ≤ c) && decide (c ≤ '9') && d.isDigit) ||
  (decide (a = '2') && decide (b = '0') && decide ('0' ≤ c) && decide (c ≤ '4') && d.isDigit)

/-- A year match of the Go pattern at position i of the character list:
four characters in the 1980-2049 alternation, with an ASCII word boundary
on each side. -/
def yearMatchAt (t : List Char) (i : Nat) : Bool :=
  match t.drop i with
  | a :: b :: c :: d :: rest =>
    yearAltOK a b c d &&
    (decide (i = 0) || !isWordChar (t.getD (i - 1) ' ')) &&
    (match rest with
     | [] => true
     | e :: _ => !isWordChar e)
  | _ => false

/-- Translation of extractYear from the listing package: the leftmost match
of the word-bounded year regex, or the empty string. -/
def extractYear (title : String) : String :=
  match findFirstAt (yearMatchAt title.data) 0 title.data.length with
  | some i => String.mk ((title.data.drop i).take 4)
  | none => ""

/-- A four-digit run in the year window at position i, delimited by
non-digits rather than by full word boundaries.

Modelled from the spec: the spec describes extractYear as returning the
first 4-digit run in the title falling within the plausible
manufacturing-year window; a digit run is bounded by non-digit characters.
This definition follows those words and is compared against the code's
word-boundary behaviour. -/
def digitRunAt (t : List Char) (i : Nat) : Bool :=
  match t.drop i with
  | a :: b :: c :: d :: rest =>
    yearAltOK a b c d &&
    (decide (i = 0) || !(t.getD (i - 1) ' ').isDigit) &&
    (match rest with
     | [] => true
     | e :: _ => !e.isDigit)
  | _ => false

/-- First four-digit run within the year window, per the spec's wording. -/
def specFirstYearRun (title : String) : String :=
  match findFirstAt (digitRunAt title.data) 0 title.data.length with
  | some i => String.mk ((title.data.drop i).take 4)
  | none => ""

/-- Does one of the four currency literals CAD, USD, cad, usd occur at the
head of the list? Returns the literal found. -/
def currencyHead (s : List Char) : Option String :=
  if decide (s.take 3 = ['C', 'A', 'D']) then some "CAD"
  else if decide (s.take 3 = ['U', 'S', 'D']) then some "USD"
  else if decide (s.take 3 = ['c', 'a', 'd']) then some "cad"
  else if decide (s.take 3 = ['u', 's', 'd']) then some "usd"
  else none

/-- Leftmost occurrence of one of the currency literals. -/
def findCurrency : List Char → Option String
  | [] => none
  | c :: rest =>
    match currencyHead (c :: rest) with
    | some m => some m
    | none => findCurrency rest

/-- Translation of extractCurrency: leftmost match of (CAD|USD|cad|usd),
upper-cased. An absent match gives the empty string. -/
def extractCurrency (price : String) : String :=
  match findCurrency price.data with
  | some m => lowerStr m |>.map Char.toUpper
  | none => ""

/-- Characters matched by the price character class [0-9,]. -/
def digitCommaChar (c : Char) : Bool :=
  c.isDigit || c = ','

/-- Leftmost maximal run of price characters, skipping an optional leading
dollar sign, as matched by the Go pattern with capture group ([0-9,]+). -/
def extractPriceAux : List Char → Option (List Char)
  | [] => none
  | c :: rest =>
    if digitCommaChar c then some (c :: rest.takeWhile digitCommaChar)
    else if c = '$' then
      match rest with
      | [] => none
      | d :: _ =>
        if digitCommaChar d then some (rest.takeWhile digitCommaChar)
        else extractPriceAux rest
    else extractPriceAux rest

/-- Translation of extractPrice: the first capture of [$]?([0-9,]+) with
commas removed, or the empty string when there is no match. -/
def extractPrice (price : String) : String :=
  match extractPriceAux price.data with
  | some run => String.mk (run.filter (fun c => !(c = ',': Bool)))
  | none => ""

/-- Parse a string of decimal digits to a natural number, failing on the
empty string or any non-digit, as strconv.ParseFloat does on the digit-only
strings produced by extractPrice. -/
def parseDigits (s : String) : Option Nat :=
  if s.data ≠ [] ∧ s.data.all Char.isDigit then
    some (s.data.foldl (fun acc c => acc * 10 + (c.toNat - '0'.toNat)) 0)
  else none

/-- Translation of convertPrice. A failed numeric parse degrades to the
empty string. When the currency is CAD the price is multiplied by the
exchange rate and rounded to the nearest whole unit; Go uses float64 and
math.Round, modelled here with exact rationals and round. -/
def convertPrice (price currency : String) (exchangeRate : ℚ) : String :=
  let p := extractPrice price
  match parseDigits p with
  | none => ""
  | some v =>
    if currency = "CAD" then toString (round ((v : ℚ) * exchangeRate))
    else p

/-- Purpose tag of a catalog model entry, standard or electric. -/
inductive BikePurpose where
  | standard
  | electric
deriving DecidableEq, Repr

/-- One catalog entry: a model name and its purpose tag. -/
structure BikeModel where
  Name : String
  Purpose : BikePurpose
deriving DecidableEq, Repr

/-- The manufacturer-model reference table.

Modelled from the spec: the Go source file declaring the package-level
bikeModels map, the knownManufacturers slice and the BikeModel type is
absent from the repository snapshot (only its callers and tests are
present). Following the spec, the catalog maps each known manufacturer to
its model entries; knownManufacturers lists the manufacturer names scanned
by the word-boundary pass of extractManufacturer. -/
structure Catalog where
  bikeModels : List (String × List BikeModel)
  knownManufacturers : List String

/-- Lookup of a manufacturer's model list; a missing key yields the empty
list, as a Go map access does for an absent key. -/
def Catalog.modelsFor (cat : Catalog) (m : String) : List BikeModel :=
  (((cat.bikeModels.find? (fun p => decide (p.1 = m))).map Prod.snd).getD [])

/-- Enumeration orders for the two loops of extractManufacturer that range
over the bikeModels map. Go randomizes map iteration order per range
statement, so each loop's key order is an arbitrary enumeration of the
same key set, supplied here as data. -/
structure MapOrder where
  pass2 : List String
  pass3 : List String
deriving Repr

/-- Case-insensitive word-boundary match of a name in a title: the
semantics of Go regexp MatchString on the pattern (?i)\b Q \b where Q is
the quoted name, for names that begin and end with ASCII word characters
(all catalog names do). -/
def wbMatch (name title : String) : Bool :=
  let t := (lowerStr title).data
  let m := (lowerStr name).data
  (List.range (t.length + 1)).any (fun i =>
    decide ((t.drop i).take m.length = m) &&
    (decide (i = 0) || !isWordChar (t.getD (i - 1) ' ')) &&
    (decide (i + m.length = t.length) || !isWordChar (t.getD (i + m.length) ' ')))

/-- The fallback passes of extractManufacturer: first manufacturer whose
name occurs case-sensitively in the title, in map order; then the first
whose name occurs case-insensitively; then the sentinel. -/
def manufacturerFallback (ord : MapOrder) (title : String) : String :=
  match ord.pass2.find? (fun m => goContains title m) with
  | some m => m
  | none =>
    match ord.pass3.find? (fun m => goContains (lowerStr title) (lowerStr m)) with
    | some m => m
    | none => "NoManufacturer"

/-- Translation of extractManufacturer: a word-boundary scan over
knownManufacturers in slice order, then the unanchored fallback passes
over the bikeModels map. -/
def extractManufacturer (cat : Catalog) (ord : MapOrder) (title : String) : String :=
  match cat.knownManufacturers.find? (fun m => wbMatch m title) with
  | some m => m
  | none => manufacturerFallback ord title

/-- The best-match accumulator loop of extractModel: scan the model list,
keeping the entry whose name is strictly longer than the best length so
far (initially zero) among those satisfying the match predicate. -/
def bestModel (p : BikeModel → Bool) : List BikeModel → Option BikeModel × Nat → Option BikeModel × Nat
  | [], acc => acc
  | m :: rest, acc =>
    bestModel p rest (if p m && decide (acc.2 < m.Name.length) then (some m, m.Name.length) else acc)

/-- Render the winning model entry, appending the electric suffix. -/
def renderModel (m : BikeModel) : String :=
  if m.Purpose = BikePurpose.electric then m.Name ++ " Electric" else m.Name

/-- Translation of extractModel: resolve the manufacturer, then find the
longest-named matching model in three tiers (case-sensitive substring,
case-insensitive word boundary, case-insensitive substring), appending
" Electric" to electric models and falling back to the sentinel. -/
def extractModel (cat : Catalog) (ord : MapOrder) (title : String) : String :=
  let manufacturer := extractManufacturer cat ord title
  if manufacturer = "NoManufacturer" then "NoModelFound"
  else
    let bikes := cat.modelsFor manufacturer
    let r1 := bestModel (fun m => goContains title m.Name) bikes (none, 0)
    let r2 := if r1.2 = 0 then bestModel (fun m => wbMatch m.Name title) bikes (none, 0) else r1
    let r3 := if r2.2 = 0 then bestModel (fun m => goContains (lowerStr title) (lowerStr m.Name)) bikes (none, 0) else r2
    match r3.1 with
    | none => "NoModelFound"
    | some best => renderModel best

/-- Seller type of a listing's detail block. -/
inductive SellerType where
  | private_
  | business
deriving DecidableEq, Repr

/-- The detail block scraped in a separate pass. -/
structure ListingDetails where
  SellerType : SellerType := SellerType.private_
  OriginalPostDate : Int := 0
  Description : String := ""
  Restrictions : String := ""
deriving DecidableEq, Repr

/-- A raw scraped listing, as produced by the scraping collaborator. -/
structure RawListing where
  Title : String := ""
  Price : String := ""
  Condition : String := ""
  FrameSize : String := ""
  WheelSize : String := ""
  FrameMaterial : String := ""
  FrontTravel : String := ""
  RearTravel : String := ""
  URL : String := ""
  DetailsLink : String := ""
deriving DecidableEq, Repr

/-- The canonical listing produced by PostProcess. -/
structure Listing where
  Title : String := ""
  Year : String := ""
  Manufacturer : String := ""
  Model : String := ""
  Price : String := ""
  Currency : String := ""
  Condition : String := ""
  FrameSize : String := ""
  WheelSize : String := ""
  FrameMaterial : String := ""
  FrontTravel : String := ""
  RearTravel : String := ""
  NeedsReview : String := ""
  URL : String := ""
  Hash : String := ""
  FirstSeen : Int := 0
  LastSeen : Int := 0
  Active : Bool := false
  Details : ListingDetails := {}
deriving DecidableEq, Repr

/-- Translation of validateListing: the first failing check's field name
in the fixed source order, or the empty string. -/
def validateListing (l : Listing) : String :=
  if l.Price = "" ∨ l.Price = "0" then "price"
  else if l.Year = "" then "year"
  else if l.Manufacturer = "NoManufacturer" ∨ l.Manufacturer = "" then "manufacturer"
  else if l.Model = "NoModelFound" ∨ goContains l.Model "Electric" = true ∨ l.Model = "" then "model"
  else if l.Currency = "" then "currency"
  else if l.Condition = "" then "condition"
  else if l.FrameSize = "" then "frame size"
  else if l.WheelSize = "" then "wheel size"
  else if l.FrontTravel = "" then "front travel"
  else if l.RearTravel = "" then "rear travel"
  else if l.FrameMaterial = "" then "frame material"
  else ""

/-- The eight strings combined by ComputeHash, in source order. -/
def hashFields (l : Listing) : List String :=
  [lowerStr l.Title, l.Year, l.Model, lowerStr l.Condition,
   lowerStr l.FrameSize, lowerStr l.FrameMaterial, l.FrontTravel, l.RearTravel]

/-- Go strings.Join with separator "|": the fields interleaved with the
pipe character. -/
def joinBar : List String → String
  | [] => ""
  | [s] => s
  | s :: rest => s ++ "|" ++ joinBar rest

/-- The digest preimage built by ComputeHash: the eight identifying fields
joined with the pipe separator. -/
def computeHashInput (l : Listing) : String :=
  joinBar (hashFields l)

/-- Translation of ComputeHash. The SHA-256 digest and hex encoding from
the Go standard library are modelled as a digest function parameter; the
preimage construction is exact. -/
def ComputeHash (sha : String → String) (l : Listing) : String :=
  sha (computeHashInput l)

/-- Remove embedded newline characters, modelling
strings.ReplaceAll(title, "\n", ""). -/
def stripNewlines (s : String) : String :=
  String.mk (s.data.filter (fun c => !(c = '\n' : Bool)))

/-- Translation of RawListing.PostProcess: derive year, manufacturer,
model, currency and converted price, carry the spec fields and URL
through, compute the hash, then set the review reason from validation.
The catalog, the digest function and the map iteration orders of the two
extract calls are explicit parameters. -/
def PostProcess (cat : Catalog) (sha : String → String) (ordM ordD : MapOrder)
    (l : RawListing) (exchangeRate : ℚ) : Listing :=
  let newL : Listing :=
    { Title := stripNewlines l.Title
      Year := extractYear l.Title
      Manufacturer := extractManufacturer cat ordM l.Title
      Model := extractModel cat ordD l.Title
      Currency := extractCurrency l.Price
      Price := convertPrice l.Price (extractCurrency l.Price) exchangeRate
      Condition := l.Condition
      FrameSize := l.FrameSize
      WheelSize := l.WheelSize
      FrontTravel := l.FrontTravel
      RearTravel := l.RearTravel
      FrameMaterial := l.FrameMaterial
      URL := l.URL }
  let hashed := { newL with Hash := ComputeHash sha newL }
  { hashed with NeedsReview := validateListing hashed }

/-- Fixture instance of the catalog.

Modelled from the spec: with the catalog source file absent, this fixture
reproduces manufacturer and model entries attested by the spec and by the
repository's unit tests, and lists knownManufacturers in decreasing order
of name length, which realizes the spec's longest-match-wins requirement
for the word-boundary manufacturer scan. -/
def fixtureCatalog : Catalog :=
  { bikeModels :=
      [("Specialized", [⟨"Stumpjumper", BikePurpose.standard⟩, ⟨"Status", BikePurpose.standard⟩,
                        ⟨"Turbo Levo", BikePurpose.electric⟩]),
       ("Santa Cruz", [⟨"Bronson", BikePurpose.standard⟩]),
       ("Ibis", [⟨"Ripmo", BikePurpose.standard⟩, ⟨"Ripmo V2", BikePurpose.standard⟩]),
       ("Kona", [⟨"Process", BikePurpose.standard⟩, ⟨"Process X", BikePurpose.standard⟩])],
    knownManufacturers := ["Specialized", "Santa Cruz", "Ibis", "Kona"] }

/-- One enumeration order of the fixture catalog's keys. -/
def ordA : MapOrder :=
  ⟨["Santa Cruz", "Specialized", "Ibis", "Kona"], ["Santa Cruz", "Specialized", "Ibis", "Kona"]⟩

/-- A second enumeration order of the same keys. -/
def ordB : MapOrder :=
  ⟨["Specialized", "Santa Cruz", "Ibis", "Kona"], ["Specialized", "Santa Cruz", "Ibis", "Kona"]⟩

/-- A row of the listings table, with the columns written by the insert
statement of the DB exporter plus the timestamp and active columns the
statement fills with CURRENT_TIMESTAMP and 1. Description and restrictions
are nullable text columns. -/
structure DBRow where
  title : String := ""
  year : String := ""
  manufacturer : String := ""
  model : String := ""
  price : String := ""
  currency : String := ""
  condition : String := ""
  frameSize : String := ""
  wheelSize : String := ""
  frameMaterial : String := ""
  frontTravel : String := ""
  rearTravel : String := ""
  needsReview : String := ""
  url : String := ""
  hash : String := ""
  description : Option String := none
  restrictions : Option String := none
  sellerType : SellerType := SellerType.private_
  originalPostDate : Int := 0
  firstSeen : Int := 0
  lastSeen : Int := 0
  active : Bool := true
deriving DecidableEq, Repr

/-- A row of the price_history table. -/
structure PHRow where
  listingHash : String
  price : String
  currency : String
  recordedAt : Int
deriving DecidableEq, Repr

/-- The durable store: the listings table and the price_history table. -/
structure Store where
  listings : List DBRow := []
  priceHistory : List PHRow := []
deriving DecidableEq, Repr

/-- The suppression window of recordPriceHistory: one day, in seconds. -/
def oneDay : Int := 86400

/-- The staleness threshold of markInactiveListings: seven days, in
seconds. -/
def sevenDays : Int := 604800

/-- Semantics of the upsert statement: INSERT with first_seen, last_seen
set to now and active 1, ON CONFLICT on the unique hash column updating
only last_seen, active, url and price. -/
def upsertListing (now : Int) (rows : List DBRow) (l : Listing) : List DBRow :=
  if rows.any (fun r => decide (r.hash = l.Hash)) then
    rows.map (fun r =>
      if r.hash = l.Hash then
        { r with lastSeen := now, active := true, url := l.URL, price := l.Price }
      else r)
  else
    rows ++ [{ title := l.Title, year := l.Year, manufacturer := l.Manufacturer,
               model := l.Model, price := l.Price, currency := l.Currency,
               condition := l.Condition, frameSize := l.FrameSize,
               wheelSize := l.WheelSize, frameMaterial := l.FrameMaterial,
               frontTravel := l.FrontTravel, rearTravel := l.RearTravel,
               needsReview := l.NeedsReview, url := l.URL, hash := l.Hash,
               description := some l.Details.Description,
               restrictions := some l.Details.Restrictions,
               sellerType := l.Details.SellerType,
               originalPostDate := l.Details.OriginalPostDate,
               firstSeen := now, lastSeen := now, active := true }]

/-- Semantics of the conditional insert of recordPriceHistory: append the
observation unless one with the same listing hash and the same price was
recorded within the trailing one-day window. The currency column is
inserted but does not take part in the suppression test. -/
def recordPriceHistoryStep (now : Int) (ph : List PHRow) (l : Listing) : List PHRow :=
  if ph.any (fun r =>
      decide (r.listingHash = l.Hash) && decide (r.price = l.Price) &&
      decide (now - oneDay < r.recordedAt)) then
    ph
  else
    ph ++ [⟨l.Hash, l.Price, l.Currency, now⟩]

/-- Semantics of markInactiveListings: set active to 0 on every listings
row whose last_seen is older than the seven-day threshold. -/
def markInactive (now : Int) (st : Store) : Store :=
  { st with
    listings := st.listings.map (fun r =>
      if r.lastSeen < now - sevenDays then { r with active := false } else r) }

/-- Failure injection for the store operations of one Export call: each
field tells whether the corresponding statement succeeds, with the
per-listing statements indexed by position in the batch. -/
structure Oracle where
  beginOk : Bool := true
  prepareOk : Bool := true
  insertOk : Nat → Bool := fun _ => true
  phOk : Nat → Bool := fun _ => true
  markOk : Bool := true
  commitOk : Bool := true

/-- The oracle under which every statement succeeds. -/
def allOk : Oracle := {}

/-- Errors of the DB exporter, one per failure point, mirroring the
wrapped error messages of the Go code. -/
inductive DBError where
  | beginFailed
  | prepareFailed
  | insertFailed (i : Nat)
  | phFailed (i : Nat)
  | markFailed
  | commitFailed
deriving DecidableEq, Repr

/-- The per-listing effect of exportListing when both of its statements
succeed: the upsert followed by the price-history append. -/
def applyListing (now : Int) (st : Store) (l : Listing) : Store :=
  { listings := upsertListing now st.listings l,
    priceHistory := recordPriceHistoryStep now st.priceHistory l }

/-- The loop of exportListings over the batch, threading the transaction
draft state and stopping at the first failed statement. -/
def exportListingsLoop (o : Oracle) (now : Int) : Nat → Store → List Listing → Except DBError Store
  | _, st, [] => Except.ok st
  | i, st, l :: rest =>
    if o.insertOk i then
      if o.phOk i then
        exportListingsLoop o now (i + 1) (applyListing now st l) rest
      else Except.error (DBError.phFailed i)
    else Except.error (DBError.insertFailed i)

/-- Translation of the DB exporter's Export: begin a transaction, prepare
the upsert statement, process the batch in order, run the staleness sweep,
and commit; the deferred rollback discards the draft on every error path,
so the store observed after a failed call is the original store. The
result pairs the call's outcome with the store visible afterwards. -/
def Export (o : Oracle) (st : Store) (batch : List Listing) (now : Int) :
    Except DBError Unit × Store :=
  if o.beginOk then
    if o.prepareOk then
      match exportListingsLoop o now 0 st batch with
      | Except.error e => (Except.error e, st)
      | Except.ok d =>
        if o.markOk then
          if o.commitOk then (Except.ok (), markInactive now d)
          else (Except.error DBError.commitFailed, st)
        else (Except.error DBError.markFailed, st)
    else (Except.error DBError.prepareFailed, st)
  else (Except.error DBError.beginFailed, st)

/-- The committed effect of a successful batch: every listing upserted and
its price observation recorded in batch order, then the staleness sweep. -/
def batchEffects (st : Store) (batch : List Listing) (now : Int) : Store :=
  markInactive now (batch.foldl (applyListing now) st)

/-- Translation of DBWorker.ListingExistsWithDetails from package db: the
SQL EXISTS test of a listings row with the given hash and description
equal to the empty string (a NULL description does not satisfy an SQL
equality comparison). -/
def listingExistsWithDetails (rows : List DBRow) (hash : String) : Bool :=
  rows.any (fun r => decide (r.hash = hash) && decide (r.description = some ""))

/-- The existence check the spec describes.

Modelled from the spec: reports whether a listings row with the given hash
has a non-empty detail block recorded, that is a non-empty description. -/
def specHasNonemptyDetails (rows : List DBRow) (hash : String) : Bool :=
  rows.any (fun r =>
    decide (r.hash = hash) &&
    match r.description with
    | some d => decide (d ≠ "")
    | none => false)

theorem bestModel_stable (p : BikeModel → Bool) :
    ∀ (bikes : List BikeModel) (acc : Option BikeModel × Nat),
      (∀ m' ∈ bikes, p m' = true → m'.Name.length ≤ acc.2) →
      bestModel p bikes acc = acc := by
  intro bikes
  induction bikes with
  | nil => intro acc _; rfl
  | cons m rest ih =>
    intro acc hle
    simp only [bestModel]
    have hm : p m = true → m.Name.length ≤ acc.2 := hle m (List.mem_cons_self m rest)
    by_cases hp : p m = true
    · have : ¬ acc.2 < m.Name.length := not_lt.mpr (hm hp)
      simp [hp, this]
      exact ih acc (fun m' hm' hpm' => hle m' (List.mem_cons_of_mem m hm') hpm')
    · simp [hp]
      exact ih acc (fun m' hm' hpm' => hle m' (List.mem_cons_of_mem m hm') hpm')

theorem bestModel_unique_max (p : BikeModel → Bool) :
    ∀ (bikes : List BikeModel) (acc : Option BikeModel × Nat) (m : BikeModel),
      m ∈ bikes → p m = true → acc.2 < m.Name.length →
      (∀ m' ∈ bikes, p m' = true → m' = m ∨ m'.Name.length < m.Name.length) →
      bestModel p bikes acc = (some m, m.Name.length) := by
  intro bikes
  induction bikes with
  | nil => intro acc m hm; exact absurd hm (List.not_mem_nil m)
  | cons m0 rest ih =>
    intro acc m hm hp hacc hmax
    simp only [bestModel]
    by_cases heq : m0 = m
    · subst heq
      simp [hp, hacc]
      apply bestModel_stable
      intro m' hm' hpm'
      rcases hmax m' (List.mem_cons_of_mem m0 hm') hpm' with h | h
      · subst h; exact le_refl _
      · exact le_of_lt h
    · have hmrest : m ∈ rest := by
        rcases List.mem_cons.mp hm with h | h
        · exact absurd h.symm heq
        · exact h
      by_cases hp0 : p m0 = true
      · have hlt : m0.Name.length < m.Name.length := by
          rcases hmax m0 (List.mem_cons_self m0 rest) hp0 with h | h
          · exact absurd h heq
          · exact h
        by_cases hup : acc.2 < m0.Name.length
        · simp [hp0, hup]
          exact ih (some m0, m0.Name.length) m hmrest hp hlt
            (fun m' hm' hpm' => hmax m' (List.mem_cons_of_mem m0 hm') hpm')
        · simp [hp0, hup]
          exact ih acc m hmrest hp hacc
            (fun m' hm' hpm' => hmax m' (List.mem_cons_of_mem m0 hm') hpm')
      · simp [hp0]
        exact ih acc m hmrest hp hacc
          (fun m' hm' hpm' => hmax m' (List.mem_cons_of_mem m0 hm') hpm')

theorem find?_sorted_max (p : String → Bool) :
    ∀ (l : List String) (r : String),
      l.Pairwise (fun a b => b.length ≤ a.length) →
      l.find? p = some r →
      ∀ m ∈ l, p m = true → m.length ≤ r.length := by
  intro l
  induction l with
  | nil => intro r _ h; simp [List.find?] at h
  | cons a rest ih =>
    intro r hpair hfind m hm hpm
    rw [List.pairwise_cons] at hpair
    by_cases hpa : p a = true
    · rw [List.find?_cons_of_pos _ hpa] at hfind
      injection hfind with hr
      subst hr
      rcases List.mem_cons.mp hm with h | h
      · subst h; exact le_refl _
      · exact hpair.1 m h
    · rw [List.find?_cons_of_neg _ (by simpa using hpa)] at hfind
      rcases List.mem_cons.mp hm with h | h
      · subst h; exact absurd hpm hpa
      · exact ih r hpair.2 hfind m h hpm

theorem exportListingsLoop_ok (o : Oracle) (now : Int) :
    ∀ (batch : List Listing) (i : Nat) (st d : Store),
      exportListingsLoop o now i st batch = Except.ok d →
      d = batch.foldl (applyListing now) st := by
  intro batch
  induction batch with
  | nil => intro i st d h; simpa [exportListingsLoop, List.foldl] using h.symm
  | cons l rest ih =>
    intro i st d h
    simp only [exportListingsLoop] at h
    by_cases h1 : o.insertOk i = true
    · by_cases h2 : o.phOk i = true
      · simp [h1, h2] at h
        simpa [List.foldl] using ih (i + 1) (applyListing now st l) d h
      · simp [h1, h2] at h
    · simp [h1] at h

theorem bar_cancel :
    ∀ (a b x y : List Char), '|' ∉ a → '|' ∉ b →
      a ++ '|' :: x = b ++ '|' :: y → a = b ∧ x = y := by
  intro a
  induction a with
  | nil =>
    intro b x y _ hb h
    cases b with
    | nil => simpa using h
    | cons c bs =>
      simp at h
      exact absurd (h.1 ▸ List.mem_cons_self c bs) hb
  | cons c as ih =>
    intro b x y ha hb h
    cases b with
    | nil =>
      simp at h
      exact absurd (h.1 ▸ List.mem_cons_self c as) ha
    | cons d bs =>
      simp at h
      obtain ⟨hcd, hrest⟩ := h
      subst hcd
      have ha' : '|' ∉ as := fun hmem => ha (List.mem_cons_of_mem c hmem)
      have hb' : '|' ∉ bs := fun hmem => hb (List.mem_cons_of_mem c hmem)
      obtain ⟨h1, h2⟩ := ih bs x y ha' hb' hrest
      exact ⟨by rw [h1], h2⟩

theorem joinBar_inj :
    ∀ (fs gs : List String), fs.length = gs.length →
      (∀ f ∈ fs, '|' ∉ f.data) → (∀ g ∈ gs, '|' ∉ g.data) →
      joinBar fs = joinBar gs → fs = gs := by
  intro fs
  induction fs with
  | nil =>
    intro gs hlen _ _ _
    cases gs with
    | nil => rfl
    | cons g gs' => simp at hlen
  | cons f fs' ih =>
    intro gs hlen hffree hgfree hjoin
    cases gs with
    | nil => simp at hlen
    | cons g gs' =>
      cases fs' with
      | nil =>
        cases gs' with
        | nil => simpa [joinBar] using hjoin
        | cons g1 gs'' => simp at hlen
      | cons f1 fs'' =>
        cases gs' with
        | nil => simp at hlen
        | cons g1 gs'' =>
          have hdata : (f ++ "|" ++ joinBar (f1 :: fs'')).data
              = (g ++ "|" ++ joinBar (g1 :: gs'')).data := by
            rw [show joinBar (f :: f1 :: fs'') = f ++ "|" ++ joinBar (f1 :: fs'') from rfl] at hjoin
            rw [show joinBar (g :: g1 :: gs'') = g ++ "|" ++ joinBar (g1 :: gs'') from rfl] at hjoin
            rw [hjoin]
          rw [String.data_append, String.data_append, String.data_append, String.data_append] at hdata
          have hbar : ("|" : String).data = ['|'] := rfl
          rw [hbar] at hdata
          simp only [List.append_assoc, List.cons_append, List.nil_append] at hdata
          obtain ⟨h1, h2⟩ := bar_cancel f.data g.data (joinBar (f1 :: fs'')).data (joinBar (g1 :: gs'')).data
            (hffree f (List.mem_cons_self f _)) (hgfree g (List.mem_cons_self g _)) hdata
          have hf : f = g := String.ext h1
          have hrest : f1 :: fs'' = g1 :: gs'' := by
            apply ih (g1 :: gs'') (by simpa using hlen)
              (fun x hx => hffree x (List.mem_cons_of_mem f hx))
              (fun x hx => hgfree x (List.mem_cons_of_mem g hx))
            exact String.ext h2
          rw [hf, hrest]

/-- Claim C2: the claim asserts that PostProcess applied twice to the same
raw listing and exchange rate yields identical listings. The fallback
passes of extractManufacturer range over the bikeModels map, whose
iteration order Go randomizes per range statement; on a title that two
manufacturer names match without a word-boundary match, two calls can
return different manufacturers and hence different listings. This theorem
exhibits such an execution pair: both orders enumerate the same key set of
the catalog, yet the resulting canonical listings differ in the
manufacturer field. -/
theorem c2_postprocess_nondeterminism :
    ordA.pass2.Perm (fixtureCatalog.bikeModels.map Prod.fst) ∧
    ordB.pass2.Perm (fixtureCatalog.bikeModels.map Prod.fst) ∧
    (PostProcess fixtureCatalog (fun s => s) ordA ordA { Title := "Santa CruzSpecialized" } 1).Manufacturer = "Santa Cruz" ∧
    (PostProcess fixtureCatalog (fun s => s) ordB ordB { Title := "Santa CruzSpecialized" } 1).Manufacturer = "Specialized" ∧
    decide (PostProcess fixtureCatalog (fun s => s) ordA ordA { Title := "Santa CruzSpecialized" } 1 =
      PostProcess fixtureCatalog (fun s => s) ordB ordB { Title := "Santa CruzSpecialized" } 1) = false := by
  refine ⟨by decide, by decide, by decide, by decide, by decide⟩

/-- A listings row carrying a non-empty recorded description. -/
def rowWithDesc : DBRow :=
  { hash := "h1", description := some "Great bike, recently serviced" }

/-- A listings row whose recorded description is the empty string. -/
def rowEmptyDesc : DBRow :=
  { hash := "h1", description := some "" }

/-- Claim C9: the claim says the existence check returns true exactly when
the store has a row with the hash and a non-empty description. The query
in package db tests description equal to the empty string, which is the
opposite: it answers false on a row with a non-empty description and true
on a row with an empty one. -/
theorem c9_details_check_inverted :
    listingExistsWithDetails [rowWithDesc] "h1" = false ∧
    specHasNonemptyDetails [rowWithDesc] "h1" = true ∧
    listingExistsWithDetails [rowEmptyDesc] "h1" = true ∧
    specHasNonemptyDetails [rowEmptyDesc] "h1" = false := by
  decide

/-- Price-history table holding one recent observation in USD. -/
def phStoreC5 : List PHRow :=
  [⟨"h1", "1000", "USD", 0⟩]

/-- An incoming observation differing from the stored one only in
currency. -/
def listingC5 : Listing :=
  { Hash := "h1", Price := "1000", Currency := "CAD" }

/-- Claim C5, counterexample: the claim says an observation differing only
in currency from a recent one is still inserted. The suppression query
matches on listing hash and price but not on currency, so the incoming
CAD observation is suppressed by the recent USD row even though no recent
observation shares its currency. -/
theorem c5_currency_ignored_counterexample :
    recordPriceHistoryStep 100 phStoreC5 listingC5 = phStoreC5 ∧
    decide (∃ r ∈ phStoreC5, r.listingHash = listingC5.Hash ∧ r.price = listingC5.Price ∧
        r.currency = listingC5.Currency ∧ (100 : Int) - oneDay < r.recordedAt) = false := by
  decide

/-- Claim C5, as amended: a new price-history row is appended exactly when
no observation with the same listing hash and the same price, regardless
of currency, was recorded within the trailing one-day window; in
particular a same-price same-currency observation within the window is
always suppressed. -/
theorem c5_price_history_suppression :
    ∀ (now : Int) (ph : List PHRow) (l : Listing),
      (recordPriceHistoryStep now ph l = ph ↔
        ∃ r ∈ ph, r.listingHash = l.Hash ∧ r.price = l.Price ∧ now - oneDay < r.recordedAt) ∧
      (recordPriceHistoryStep now ph l = ph ++ [⟨l.Hash, l.Price, l.Currency, now⟩] ↔
        ¬ ∃ r ∈ ph, r.listingHash = l.Hash ∧ r.price = l.Price ∧ now - oneDay < r.recordedAt) ∧
      (∀ r ∈ ph, r.listingHash = l.Hash → r.price = l.Price → r.currency = l.Currency →
        now - oneDay < r.recordedAt → recordPriceHistoryStep now ph l = ph) := by
  intro now ph l
  have hiff : (ph.any (fun r =>
      decide (r.listingHash = l.Hash) && decide (r.price = l.Price) &&
      decide (now - oneDay < r.recordedAt)) = true) ↔
      ∃ r ∈ ph, r.listingHash = l.Hash ∧ r.price = l.Price ∧ now - oneDay < r.recordedAt := by
    simp [List.any_eq_true, and_assoc]
  by_cases hc : ph.any (fun r =>
      decide (r.listingHash = l.Hash) && decide (r.price = l.Price) &&
      decide (now - oneDay < r.recordedAt)) = true
  · refine ⟨⟨fun _ => hiff.mp hc, fun _ => by simp [recordPriceHistoryStep, hc]⟩, ?_, ?_⟩
    · constructor
      · intro h
        have hlen := congrArg List.length h
        simp [recordPriceHistoryStep, hc] at hlen
      · intro h; exact absurd (hiff.mp hc) h
    · intro r _ _ _ _ _; simp [recordPriceHistoryStep, hc]
  · refine ⟨⟨fun h => ?_, fun h => absurd (hiff.mpr h) hc⟩, ?_, ?_⟩
    · have hlen := congrArg List.length h
      simp [recordPriceHistoryStep, hc] at hlen
    · constructor
      · intro _; exact fun h => absurd (hiff.mpr h) hc
      · intro _; simp [recordPriceHistoryStep, hc]
    · intro r hr h1 h2 _ h4
      exact absurd (hiff.mpr ⟨r, hr, h1, h2, h4⟩) hc

/-- Witness for claim C5: a same-price same-currency observation recorded
within the window suppresses the insert. -/
theorem c5_price_history_suppression_witness :
    recordPriceHistoryStep 100 [⟨"h2", "5", "CAD", 50⟩]
      { Hash := "h2", Price := "5", Currency := "CAD" } = [⟨"h2", "5", "CAD", 50⟩] :=
  (c5_price_history_suppression 100 [⟨"h2", "5", "CAD", 50⟩]
      { Hash := "h2", Price := "5", Currency := "CAD" }).2.2
    ⟨"h2", "5", "CAD", 50⟩ (List.mem_singleton.mpr rfl) rfl rfl rfl (by decide)

/-- The eight identifying fields are free of the pipe separator. -/
def delimFreeFields (l : Listing) : Prop :=
  ∀ f ∈ hashFields l, '|' ∉ f.data

/-- Claim C6, as amended: the digest preimage of ComputeHash is built from
exactly the eight identifying fields in source order, so listings agreeing
on them hash identically under any digest function, and changing only
price or url never changes the hash; conversely, listings whose eight
fields are free of the pipe separator and whose preimages coincide agree
on all eight fields. The separator is not guaranteed absent from the
freeform fields, so the unconditional sensitivity direction of the
original claim fails. -/
theorem c6_hash_field_dependence :
    (∀ (sha : String → String) (l1 l2 : Listing),
      hashFields l1 = hashFields l2 → ComputeHash sha l1 = ComputeHash sha l2) ∧
    (∀ (sha : String → String) (l : Listing) (p u : String),
      ComputeHash sha { l with Price := p, URL := u } = ComputeHash sha l) ∧
    (∀ (l1 l2 : Listing), delimFreeFields l1 → delimFreeFields l2 →
      computeHashInput l1 = computeHashInput l2 → hashFields l1 = hashFields l2) := by
  refine ⟨?_, ?_, ?_⟩
  · intro sha l1 l2 h
    unfold ComputeHash computeHashInput
    rw [h]
  · intro sha l p u; rfl
  · intro l1 l2 h1 h2 hinput
    exact joinBar_inj (hashFields l1) (hashFields l2) (by simp [hashFields]) h1 h2 hinput

/-- Claim C6, counterexample: two listings that differ in the lower-cased
title and in the year, yet produce the same digest preimage, because the
pipe separator occurs inside the first title. Their digests therefore
agree under every digest function, refuting the unconditional sensitivity
claim. -/
theorem c6_hash_preimage_counterexample :
    computeHashInput { Title := "a|b", Year := "c" } =
      computeHashInput { Title := "a", Year := "b|c" } ∧
    decide (lowerStr ({ Title := "a|b", Year := "c" } : Listing).Title =
      lowerStr ({ Title := "a", Year := "b|c" } : Listing).Title) = false ∧
    decide (({ Title := "a|b", Year := "c" } : Listing).Year =
      ({ Title := "a", Year := "b|c" } : Listing).Year) = false := by
  decide

/-- Witness for claim C6: two concrete listings differing only in price
have pipe-free fields and equal preimages, and the theorem recovers the
agreement of their eight identifying fields. -/
theorem c6_hash_field_dependence_witness :
    hashFields { Title := "Bike A", Price := "1" } =
      hashFields { Title := "Bike A", Price := "2" } :=
  c6_hash_field_dependence.2.2 { Title := "Bike A", Price := "1" }
    { Title := "Bike A", Price := "2" }
    (by unfold delimFreeFields hashFields; decide)
    (by unfold delimFreeFields hashFields; decide) rfl

/-- Claim C10: an Export call with an empty batch, with every statement
succeeding, returns no error, inserts and updates no listings row beyond
the staleness sweep, appends nothing to price history, and sets active to
false on exactly the rows whose last-seen is older than the seven-day
threshold. -/
theorem c10_empty_batch_sweep :
    ∀ (st : Store) (now : Int),
      (Export allOk st [] now).1 = Except.ok () ∧
      (Export allOk st [] now).2.listings = st.listings.map
        (fun r => if r.lastSeen < now - sevenDays then { r with active := false } else r) ∧
      (Export allOk st [] now).2.priceHistory = st.priceHistory := by
  intro st now
  exact ⟨rfl, rfl, rfl⟩

/-- Claim C1: an Export call is all-or-nothing. On every failing path,
begin, prepare, any per-listing insert, any price-history append, the
staleness sweep or the commit, the store visible after the call is the
store before it; on the successful path the visible store carries exactly
the batch effects: every listing upserted with its price observation in
batch order, followed by the staleness sweep. -/
theorem c1_export_atomicity :
    ∀ (o : Oracle) (st : Store) (batch : List Listing) (now : Int),
      (∀ e, (Export o st batch now).1 = Except.error e → (Export o st batch now).2 = st) ∧
      ((Export o st batch now).1 = Except.ok () → (Export o st batch now).2 = batchEffects st batch now) := by
  intro o st batch now
  by_cases hb : o.beginOk = true
  · by_cases hp : o.prepareOk = true
    · cases hloop : exportListingsLoop o now 0 st batch with
      | error e =>
        refine ⟨fun e' _ => ?_, fun h => ?_⟩
        · simp [Export, hb, hp, hloop]
        · simp [Export, hb, hp, hloop] at h
      | ok d =>
        by_cases hm : o.markOk = true
        · by_cases hc : o.commitOk = true
          · refine ⟨fun e' h => ?_, fun _ => ?_⟩
            · simp [Export, hb, hp, hloop, hm, hc] at h
            · have hd := exportListingsLoop_ok o now batch 0 st d hloop
              simp [Export, hb, hp, hloop, hm, hc, batchEffects, hd]
          · refine ⟨fun e' _ => ?_, fun h => ?_⟩
            · simp [Export, hb, hp, hloop, hm, hc]
            · simp [Export, hb, hp, hloop, hm, hc] at h
        · refine ⟨fun e' _ => ?_, fun h => ?_⟩
          · simp [Export, hb, hp, hloop, hm]
          · simp [Export, hb, hp, hloop, hm] at h
    · refine ⟨fun e' _ => ?_, fun h => ?_⟩
      · simp [Export, hb, hp]
      · simp [Export, hb, hp] at h
  · refine ⟨fun e' _ => ?_, fun h => ?_⟩
    · simp [Export, hb]
    · simp [Export, hb] at h

/-- Oracle under which the staleness sweep fails. -/
def markFailOracle : Oracle := { markOk := false }

/-- Witness for claim C1: with a failing sweep the store is untouched, and
with every statement succeeding the batch effects are committed. -/
theorem c1_export_atomicity_witness :
    (Export markFailOracle ({} : Store) [] 5).2 = ({} : Store) ∧
    (Export allOk ({} : Store) [] 5).2 = batchEffects ({} : Store) [] 5 :=
  ⟨(c1_export_atomicity markFailOracle ({} : Store) [] 5).1 DBError.markFailed rfl,
   (c1_export_atomicity allOk ({} : Store) [] 5).2 rfl⟩

/-- Claim C3: among the resolved manufacturer's models, whichever match
tier applies, the extraction returns the strictly longest matching model
name, wherever the catalog lists it. The three parts cover the three
tiers of extractModel: a strictly longest case-sensitive substring match
wins; when no model matches case-sensitively, a strictly longest
case-insensitive word-boundary match wins; and when neither of those
tiers matches, a strictly longest case-insensitive substring match wins.
In particular the Ibis title yields Ripmo V2 rather than Ripmo, the Kona
title yields Process X rather than Process, and the all-lowercase Ibis
title, whose matches arise only in the case-insensitive tier, still
yields Ripmo V2. -/
theorem c3_extractModel_longest_match :
    (∀ (cat : Catalog) (ord : MapOrder) (title : String) (m : BikeModel),
      extractManufacturer cat ord title ≠ "NoManufacturer" →
      m ∈ cat.modelsFor (extractManufacturer cat ord title) →
      goContains title m.Name = true →
      0 < m.Name.length →
      (∀ m' ∈ cat.modelsFor (extractManufacturer cat ord title),
        goContains title m'.Name = true → m' = m ∨ m'.Name.length < m.Name.length) →
      extractModel cat ord title = renderModel m) ∧
    (∀ (cat : Catalog) (ord : MapOrder) (title : String) (m : BikeModel),
      extractManufacturer cat ord title ≠ "NoManufacturer" →
      m ∈ cat.modelsFor (extractManufacturer cat ord title) →
      (∀ m' ∈ cat.modelsFor (extractManufacturer cat ord title),
        goContains title m'.Name = false) →
      wbMatch m.Name title = true →
      0 < m.Name.length →
      (∀ m' ∈ cat.modelsFor (extractManufacturer cat ord title),
        wbMatch m'.Name title = true → m' = m ∨ m'.Name.length < m.Name.length) →
      extractModel cat ord title = renderModel m) ∧
    (∀ (cat : Catalog) (ord : MapOrder) (title : String) (m : BikeModel),
      extractManufacturer cat ord title ≠ "NoManufacturer" →
      m ∈ cat.modelsFor (extractManufacturer cat ord title) →
      (∀ m' ∈ cat.modelsFor (extractManufacturer cat ord title),
        goContains title m'.Name = false) →
      (∀ m' ∈ cat.modelsFor (extractManufacturer cat ord title),
        wbMatch m'.Name title = false) →
      goContains (lowerStr title) (lowerStr m.Name) = true →
      0 < m.Name.length →
      (∀ m' ∈ cat.modelsFor (extractManufacturer cat ord title),
        goContains (lowerStr title) (lowerStr m'.Name) = true →
          m' = m ∨ m'.Name.length < m.Name.length) →
      extractModel cat ord title = renderModel m) ∧
    extractModel fixtureCatalog ordA "Ibis Ripmo V2" = "Ripmo V2" ∧
    extractModel fixtureCatalog ordA "Kona Process X" = "Process X" ∧
    extractModel fixtureCatalog ordA "ibis ripmo v2" = "Ripmo V2" := by
  refine ⟨?_, ?_, ?_, by decide, by decide, by decide⟩
  · intro cat ord title m hmfr hmem hcs hpos hmax
    have hbest := bestModel_unique_max (fun m' => goContains title m'.Name)
        (cat.modelsFor (extractManufacturer cat ord title)) (none, 0) m hmem hcs hpos hmax
    have hne : m.Name.length ≠ 0 := Nat.pos_iff_ne_zero.mp hpos
    simp only [extractModel]
    simp [hmfr, hbest, hne]
  · intro cat ord title m hmfr hmem hcsnone hwb hpos hmax
    have h1 : bestModel (fun m' => goContains title m'.Name)
        (cat.modelsFor (extractManufacturer cat ord title)) (none, 0) = (none, 0) :=
      bestModel_stable _ _ _
        (fun m' hm' hp => absurd hp (by simp [hcsnone m' hm']))
    have hbest := bestModel_unique_max (fun m' => wbMatch m'.Name title)
        (cat.modelsFor (extractManufacturer cat ord title)) (none, 0) m hmem hwb hpos hmax
    have hne : m.Name.length ≠ 0 := Nat.pos_iff_ne_zero.mp hpos
    simp only [extractModel]
    simp [hmfr, h1, hbest, hne]
  · intro cat ord title m hmfr hmem hcsnone hwbnone hci hpos hmax
    have h1 : bestModel (fun m' => goContains title m'.Name)
        (cat.modelsFor (extractManufacturer cat ord title)) (none, 0) = (none, 0) :=
      bestModel_stable _ _ _
        (fun m' hm' hp => absurd hp (by simp [hcsnone m' hm']))
    have h2 : bestModel (fun m' => wbMatch m'.Name title)
        (cat.modelsFor (extractManufacturer cat ord title)) (none, 0) = (none, 0) :=
      bestModel_stable _ _ _
        (fun m' hm' hp => absurd hp (by simp [hwbnone m' hm']))
    have hbest := bestModel_unique_max (fun m' => goContains (lowerStr title) (lowerStr m'.Name))
        (cat.modelsFor (extractManufacturer cat ord title)) (none, 0) m hmem hci hpos hmax
    have hne : m.Name.length ≠ 0 := Nat.pos_iff_ne_zero.mp hpos
    simp only [extractModel]
    simp [hmfr, h1, h2, hbest, hne]

/-- Witness for claim C3: each tier of the longest-match statement applied
to the fixture catalog under the second enumeration order, on a
case-sensitive title, an all-lowercase title whose matches arise only in
the word-boundary tier, and a title whose match arises only in the
case-insensitive substring tier. -/
theorem c3_extractModel_longest_match_witness :
    extractModel fixtureCatalog ordB "Ibis Ripmo V2" =
      renderModel ⟨"Ripmo V2", BikePurpose.standard⟩ ∧
    extractModel fixtureCatalog ordB "ibis ripmo v2" =
      renderModel ⟨"Ripmo V2", BikePurpose.standard⟩ ∧
    extractModel fixtureCatalog ordB "Ibis ripmov2" =
      renderModel ⟨"Ripmo", BikePurpose.standard⟩ :=
  ⟨c3_extractModel_longest_match.1 fixtureCatalog ordB "Ibis Ripmo V2"
      ⟨"Ripmo V2", BikePurpose.standard⟩
      (by decide) (by decide) (by decide) (by decide) (by decide),
   c3_extractModel_longest_match.2.1 fixtureCatalog ordB "ibis ripmo v2"
      ⟨"Ripmo V2", BikePurpose.standard⟩
      (by decide) (by decide) (by decide) (by decide) (by decide) (by decide),
   c3_extractModel_longest_match.2.2.1 fixtureCatalog ordB "Ibis ripmov2"
      ⟨"Ripmo", BikePurpose.standard⟩
      (by decide) (by decide) (by decide) (by decide) (by decide) (by decide) (by decide)⟩

/-- Claim C4: when the known-manufacturers list is ordered by decreasing
name length, as the spec's longest-match-wins rule dictates for the
missing catalog file, the word-boundary scan returns an anchored match of
maximal length among all anchored matches; and the unanchored substring
fallback is consulted exactly when no anchored match exists. -/
theorem c4_extractManufacturer_longest_anchored :
    (∀ (cat : Catalog) (ord : MapOrder) (title : String) (m : String),
      cat.knownManufacturers.Pairwise (fun a b => b.length ≤ a.length) →
      m ∈ cat.knownManufacturers → wbMatch m title = true →
      extractManufacturer cat ord title ∈ cat.knownManufacturers ∧
      wbMatch (extractManufacturer cat ord title) title = true ∧
      (∀ m' ∈ cat.knownManufacturers, wbMatch m' title = true →
        m'.length ≤ (extractManufacturer cat ord title).length)) ∧
    (∀ (cat : Catalog) (ord : MapOrder) (title : String),
      (∀ m ∈ cat.knownManufacturers, wbMatch m title = false) →
      extractManufacturer cat ord title = manufacturerFallback ord title) ∧
    extractManufacturer fixtureCatalog ordA "Santa Cruz Specialized bike" = "Specialized" := by
  refine ⟨?_, ?_, by decide⟩
  · intro cat ord title m hsort hmem hwb
    unfold extractManufacturer
    cases hfind : cat.knownManufacturers.find? (fun x => wbMatch x title) with
    | none =>
      have := List.find?_eq_none.mp hfind m hmem
      simp [hwb] at this
    | some r =>
      have h1 : r ∈ cat.knownManufacturers := List.mem_of_find?_eq_some hfind
      have h2 : wbMatch r title = true := by simpa using List.find?_some hfind
      have h3 : ∀ m' ∈ cat.knownManufacturers, wbMatch m' title = true → m'.length ≤ r.length :=
        find?_sorted_max (fun x => wbMatch x title) cat.knownManufacturers r hsort hfind
      exact ⟨h1, h2, h3⟩
  · intro cat ord title hnone
    unfold extractManufacturer
    have h : cat.knownManufacturers.find? (fun x => wbMatch x title) = none :=
      List.find?_eq_none.mpr (fun x hx => by simp [hnone x hx])
    rw [h]

/-- Witness for claim C4: the anchored longest-match statement applied to
the fixture catalog, whose known-manufacturers list is sorted by
decreasing length, on a title with two anchored matches. -/
theorem c4_extractManufacturer_longest_anchored_witness :
    extractManufacturer fixtureCatalog ordB "Santa Cruz Specialized bike" ∈
        fixtureCatalog.knownManufacturers ∧
    wbMatch (extractManufacturer fixtureCatalog ordB "Santa Cruz Specialized bike")
        "Santa Cruz Specialized bike" = true ∧
    (∀ m' ∈ fixtureCatalog.knownManufacturers,
      wbMatch m' "Santa Cruz Specialized bike" = true →
      m'.length ≤ (extractManufacturer fixtureCatalog ordB "Santa Cruz Specialized bike").length) :=
  c4_extractManufacturer_longest_anchored.1 fixtureCatalog ordB
    "Santa Cruz Specialized bike" "Santa Cruz" (by decide) (by decide) (by decide)

theorem yearMatchAt_lt (t : List Char) (i : Nat) (h : yearMatchAt t i = true) : i < t.length := by
  by_contra hle
  push_neg at hle
  have hdrop : t.drop i = [] := List.drop_eq_nil_of_le hle
  simp [yearMatchAt, hdrop] at h

/-- Claim C8, as amended: extractYear returns the leftmost word-bounded
four-digit number in the 1980 to 2049 window and the empty string when no
position matches; the word boundary means a match cannot be adjacent to a
letter, digit or underscore, which is why titles such as 1979 and 2050
yield empty while 2023 yields 2023. -/
theorem c8_extractYear_window :
    (∀ (title : String) (i : Nat), yearMatchAt title.data i = true →
      (∀ j, j < i → yearMatchAt title.data j = false) →
      extractYear title = String.mk ((title.data.drop i).take 4)) ∧
    (∀ title : String, (∀ i, yearMatchAt title.data i = false) → extractYear title = "") ∧
    extractYear "1979" = "" ∧ extractYear "2050" = "" ∧ extractYear "2023" = "2023" := by
  refine ⟨?_, ?_, by decide, by decide, by decide⟩
  · intro title i hi hmin
    unfold extractYear
    cases hf : findFirstAt (yearMatchAt title.data) 0 title.data.length with
    | none =>
      have hlt := yearMatchAt_lt _ _ hi
      have hfalse := findFirstAt_none_spec _ _ _ hf i (Nat.zero_le i) (by omega)
      simp [hfalse] at hi
    | some j =>
      obtain ⟨hj, _, hall⟩ := findFirstAt_some_spec _ _ _ _ hf
      have hij : i = j := by
        rcases lt_trichotomy i j with h | h | h
        · have := hall i (Nat.zero_le i) h
          simp [this] at hi
        · exact h
        · have := hmin j h
          simp [this] at hj
      subst hij
      rfl
  · intro title hnone
    unfold extractYear
    cases hf : findFirstAt (yearMatchAt title.data) 0 title.data.length with
    | none => rfl
    | some j =>
      have := (findFirstAt_some_spec _ _ _ _ hf).1
      simp [hnone j] at this

/-- Witness for claim C8: the leftmost-match statement applied to a title
that matches at its first position. -/
theorem c8_extractYear_window_witness :
    extractYear "2023 Transition" =
      String.mk ((("2023 Transition" : String).data.drop 0).take 4) :=
  c8_extractYear_window.1 "2023 Transition" 0 (by decide)
    (fun j hj => absurd hj (Nat.not_lt_zero j))

/-- Claim C8, counterexample: on the title Trek2023 the spec's reading,
the first four-digit run inside the year window, yields 2023, while the
code's word-boundary pattern rejects the digits glued to the preceding
letters and returns the empty string. -/
theorem c8_extractYear_counterexample :
    extractYear "Trek2023" = "" ∧ specFirstYearRun "Trek2023" = "2023" := by
  decide

/-- The validation rule table as the spec states it: field names paired
with their failing conditions, in the fixed priority order. -/
def validationChecks : List (String × (Listing → Bool)) :=
  [("price", fun l => decide (l.Price = "") || decide (l.Price = "0")),
   ("year", fun l => decide (l.Year = "")),
   ("manufacturer", fun l => decide (l.Manufacturer = "NoManufacturer") || decide (l.Manufacturer = "")),
   ("model", fun l => decide (l.Model = "NoModelFound") || goContains l.Model "Electric" || decide (l.Model = "")),
   ("currency", fun l => decide (l.Currency = "")),
   ("condition", fun l => decide (l.Condition = "")),
   ("frame size", fun l => decide (l.FrameSize = "")),
   ("wheel size", fun l => decide (l.WheelSize = "")),
   ("front travel", fun l => decide (l.FrontTravel = "")),
   ("rear travel", fun l => decide (l.RearTravel = "")),
   ("frame material", fun l => decide (l.FrameMaterial = ""))]

/-- The name of the first failing check of the table, or the empty string
when every check passes. -/
def firstFailingCheck (l : Listing) : String :=
  match validationChecks.find? (fun c => c.2 l) with
  | some c => c.1
  | none => ""

/-- Claim C7: validateListing reports exactly the first failing check of
the fixed table, and the empty string when all checks pass; a listing
missing both price and year reports price, a listing whose model carries
the electric marker is never clean, and it reports model once the checks
before it pass. -/
theorem c7_validate_first_failing :
    (∀ l : Listing, validateListing l = firstFailingCheck l) ∧
    (∀ l : Listing, l.Price = "" → l.Year = "" → validateListing l = "price") ∧
    (∀ l : Listing, goContains l.Model "Electric" = true → validateListing l ≠ "") ∧
    (∀ l : Listing, goContains l.Model "Electric" = true →
      ¬(l.Price = "" ∨ l.Price = "0") → l.Year ≠ "" →
      ¬(l.Manufacturer = "NoManufacturer" ∨ l.Manufacturer = "") →
      validateListing l = "model") := by
  refine ⟨?_, ?_, ?_, ?_⟩
  · intro l
    by_cases h1 : l.Price = "" ∨ l.Price = "0"
    · rcases h1 with h | h <;>
        simp [validateListing, firstFailingCheck, validationChecks, List.find?, h]
    · rw [not_or] at h1
      obtain ⟨h1a, h1b⟩ := h1
      by_cases h2 : l.Year = ""
      · simp [validateListing, firstFailingCheck, validationChecks, List.find?, h1a, h1b, h2]
      · by_cases h3 : l.Manufacturer = "NoManufacturer" ∨ l.Manufacturer = ""
        · rcases h3 with h | h <;>
            simp [validateListing, firstFailingCheck, validationChecks, List.find?,
              h1a, h1b, h2, h]
        · rw [not_or] at h3
          obtain ⟨h3a, h3b⟩ := h3
          by_cases h4 : l.Model = "NoModelFound" ∨ goContains l.Model "Electric" = true ∨ l.Model = ""
          · rcases h4 with h | h | h <;>
              simp [validateListing, firstFailingCheck, validationChecks, List.find?,
                h1a, h1b, h2, h3a, h3b, h]
          · rw [not_or, not_or] at h4
            obtain ⟨h4a, h4b, h4c⟩ := h4
            have h4b' : goContains l.Model "Electric" = false := by
              revert h4b; cases goContains l.Model "Electric" <;> simp
            by_cases h5 : l.Currency = ""
            · simp [validateListing, firstFailingCheck, validationChecks, List.find?,
                h1a, h1b, h2, h3a, h3b, h4a, h4b', h4c, h5]
            · by_cases h6 : l.Condition = ""
              · simp [validateListing, firstFailingCheck, validationChecks, List.find?,
                  h1a, h1b, h2, h3a, h3b, h4a, h4b', h4c, h5, h6]
              · by_cases h7 : l.FrameSize = ""
                · simp [validateListing, firstFailingCheck, validationChecks, List.find?,
                    h1a, h1b, h2, h3a, h3b, h4a, h4b', h4c, h5, h6, h7]
                · by_cases h8 : l.WheelSize = ""
                  · simp [validateListing, firstFailingCheck, validationChecks, List.find?,
                      h1a, h1b, h2, h3a, h3b, h4a, h4b', h4c, h5, h6, h7, h8]
                  · by_cases h9 : l.FrontTravel = ""
                    · simp [validateListing, firstFailingCheck, validationChecks, List.find?,
                        h1a, h1b, h2, h3a, h3b, h4a, h4b', h4c, h5, h6, h7, h8, h9]
                    · by_cases h10 : l.RearTravel = ""
                      · simp [validateListing, firstFailingCheck, validationChecks, List.find?,
                          h1a, h1b, h2, h3a, h3b, h4a, h4b', h4c, h5, h6, h7, h8, h9, h10]
                      · by_cases h11 : l.FrameMaterial = ""
                        · simp [validateListing, firstFailingCheck, validationChecks, List.find?,
                            h1a, h1b, h2, h3a, h3b, h4a, h4b', h4c, h5, h6, h7, h8, h9, h10, h11]
                        · simp [validateListing, firstFailingCheck, validationChecks, List.find?,
                            h1a, h1b, h2, h3a, h3b, h4a, h4b', h4c, h5, h6, h7, h8, h9, h10, h11]
  · intro l hp _
    simp [validateListing, hp]
  · intro l h
    by_cases h1 : l.Price = "" ∨ l.Price = "0"
    · unfold validateListing
      rw [if_pos h1]
      decide
    · by_cases h2 : l.Year = ""
      · unfold validateListing
        rw [if_neg h1, if_pos h2]
        decide
      · by_cases h3 : l.Manufacturer = "NoManufacturer" ∨ l.Manufacturer = ""
        · unfold validateListing
          rw [if_neg h1, if_neg h2, if_pos h3]
          decide
        · unfold validateListing
          rw [if_neg h1, if_neg h2, if_neg h3, if_pos (Or.inr (Or.inl h))]
          decide
  · intro l h hp hy hm
    have h4 : l.Model = "NoModelFound" ∨ goContains l.Model "Electric" = true ∨ l.Model = "" :=
      Or.inr (Or.inl h)
    unfold validateListing
    rw [if_neg hp, if_neg hy, if_neg hm, if_pos h4]

/-- Witness for claim C7: a listing missing every field reports price, and
the table agrees with the validator on it. -/
theorem c7_validate_first_failing_witness :
    validateListing ({} : Listing) = "price" ∧
    validateListing ({} : Listing) = firstFailingCheck ({} : Listing) :=
  ⟨c7_validate_first_failing.2.1 ({} : Listing) rfl rfl,
   c7_validate_first_failing.1 ({} : Listing)⟩
